import Mathlib

/-!
Verification of the fizzy WebAssembly interpreter's C API layer
(`lib/fizzy/capi.cpp`, `fizzy.h`, `execute.hpp`, `instantiate.hpp`)
against its natural-language specification.

Modelling conventions:
* A runtime `Value` (the 64-bit `union FizzyValue`) is a `Nat` holding the raw
  64-bit word; none of the verified operations computes with it, they only move
  it around, so no modular arithmetic is needed.
* C pointers to arrays are modelled as Lean lists (the pointer together with
  its element count); a possibly-null C string is `Option String` (`none` is
  the null pointer); a possibly-null object pointer is an `Option`.
* C++ `std::function` callables are ordinary Lean functions; the opaque
  `void* context` cookie and the opaque `Instance*` seen by a host callback
  are type parameters `Ctx` and `Inst`, so the model can never fabricate or
  inspect them.
* Components of the repository whose implementation files were not provided
  (the binary parser, the instantiator, the resolver and executor bodies) are
  either taken as explicit function parameters or modelled from the spec; each
  such definition says so in its doc comment.
-/

namespace Fizzy

/-- Wasm value types, `enum FizzyValueType` in `fizzy.h` / `fizzy::ValType`. -/
inductive ValType
  | i32
  | i64
  | f32
  | f64
deriving DecidableEq, Repr

/-- A function type: ordered inputs and ordered outputs (0 or 1 entries for
valid modules).  `fizzy::FuncType` / `FizzyFunctionType` (the C struct's
pointer+size pairs are modelled as lists). -/
structure FuncType where
  inputs : List ValType
  outputs : List ValType
deriving DecidableEq, Repr

/-- Import/export kinds, `fizzy::ExternalKind`. -/
inductive ExternalKind
  | function
  | table
  | memory
  | globalKind
deriving DecidableEq, Repr

/-- Import description: for a function import, the index of its signature in
the module's type section. -/
inductive ImportDesc
  | function (typeIdx : Nat)
  | table
  | memory
  | globalKind
deriving DecidableEq, Repr

/-- One entry of the module's import section: (module name, element name,
kind with type descriptor). -/
structure Import where
  module : String
  name : String
  desc : ImportDesc
deriving DecidableEq, Repr

/-- One entry of the module's export section: (name, kind, index). -/
structure Export where
  name : String
  kind : ExternalKind
  index : Nat
deriving DecidableEq, Repr

/-- The parts of `fizzy::Module` the verified claims depend on: the
type, import and export sections (field names follow the source). -/
structure Module where
  typesec : List FuncType
  importsec : List Import
  exportsec : List Export
deriving DecidableEq, Repr

/-- The result of an execution, `fizzy::ExecutionResult` (`execute.hpp`):
`trapped`, `has_value`, and the single result `value`. -/
structure ExecutionResult where
  trapped : Bool
  has_value : Bool
  value : Nat
deriving DecidableEq, Repr

/-- `constexpr ExecutionResult(Value _value)`: result with a value
(`trapped = false`, `has_value = true`). -/
def ExecutionResult.ofValue (v : Nat) : ExecutionResult :=
  { trapped := false, has_value := true, value := v }

/-- `constexpr explicit ExecutionResult(bool success)`: "void" or "trap"
state depending on the success flag; `value` keeps its default (zero word). -/
def ExecutionResult.ofSuccess (success : Bool) : ExecutionResult :=
  { trapped := !success, has_value := false, value := 0 }

/-- `constexpr ExecutionResult Void{true}`. -/
def Void : ExecutionResult := ExecutionResult.ofSuccess true

/-- `constexpr ExecutionResult Trap{false}`. -/
def Trap : ExecutionResult := ExecutionResult.ofSuccess false

/-- The results constructible through `fizzy::ExecutionResult`'s two public
constructors (the only ways the library builds one). -/
inductive ExecutionResult.Constructed : ExecutionResult → Prop
  | ofValue (v : Nat) : ExecutionResult.Constructed (ExecutionResult.ofValue v)
  | ofSuccess (success : Bool) :
      ExecutionResult.Constructed (ExecutionResult.ofSuccess success)

/-- `struct FizzyExecutionResult` from `fizzy.h`: the C-side triple. -/
structure FizzyExecutionResult where
  trapped : Bool
  has_value : Bool
  value : Nat
deriving DecidableEq, Repr

/-- `wrap(const fizzy::ExecutionResult&)` in `capi.cpp`. -/
def wrapExecutionResult (r : ExecutionResult) : FizzyExecutionResult :=
  { trapped := r.trapped, has_value := r.has_value, value := r.value }

/-- `unwrap(FizzyExecutionResult)` in `capi.cpp`: trapped goes to `Trap`,
no value goes to `Void`, otherwise the value is taken. -/
def unwrapExecutionResult (r : FizzyExecutionResult) : ExecutionResult :=
  if r.trapped then Trap
  else if !r.has_value then Void
  else ExecutionResult.ofValue r.value

/-- `FizzyExternalFn` from `fizzy.h`: a host callback receiving the context
cookie, the instance pointer, the argument array with its size, and the call
depth, returning a `FizzyExecutionResult`.  `Ctx` and `Inst` are the opaque
pointer types. -/
def FizzyExternalFn (Ctx Inst : Type) : Type :=
  Ctx → Inst → List Nat → Nat → Nat → FizzyExecutionResult

/-- The internal callable type stored in `fizzy::ExternalFunction::function`:
`std::function<ExecutionResult(Instance&, const Value*, int depth)>`. -/
def InternalFn (Inst : Type) : Type :=
  Inst → List Nat → Nat → ExecutionResult

/-- `unwrap(FizzyExternalFn func, void* context)` in `capi.cpp`: the lambda
that invokes the host callback with the bound context, the instance, the
argument span's data and size, and the current depth, and converts the
returned `FizzyExecutionResult` back to an internal result. -/
def unwrapExternalFn {Ctx Inst : Type} (func : FizzyExternalFn Ctx Inst)
    (context : Ctx) : InternalFn Inst :=
  fun inst args depth =>
    unwrapExecutionResult (func context inst args args.length depth)

/-- `struct FizzyExternalFunction` from `fizzy.h`: type, callback, context. -/
structure FizzyExternalFunction (Ctx Inst : Type) where
  type : FuncType
  function : FizzyExternalFn Ctx Inst
  context : Ctx

/-- `fizzy::ExternalFunction` (`instantiate.hpp`): internal callable plus its
function type. -/
structure ExternalFunction (Inst : Type) where
  function : InternalFn Inst
  type : FuncType

/-- `unwrap(const FizzyExternalFunction&)` in `capi.cpp`. -/
def unwrapExternalFunction {Ctx Inst : Type}
    (external_func : FizzyExternalFunction Ctx Inst) : ExternalFunction Inst :=
  { function := unwrapExternalFn external_func.function external_func.context
    type := external_func.type }

/-- `struct FizzyImportedFunction` from `fizzy.h`: possibly-null module and
name strings plus the external function. -/
structure FizzyImportedFunction (Ctx Inst : Type) where
  module : Option String
  name : Option String
  external_function : FizzyExternalFunction Ctx Inst

/-- `fizzy::ImportedFunction` (`instantiate.hpp`): named import candidate with
its signature split into `inputs` and the optional single `output`. -/
structure ImportedFunction (Inst : Type) where
  module : String
  name : String
  inputs : List ValType
  output : Option ValType
  function : InternalFn Inst

/-- `unwrap(const FizzyImportedFunction&)` in `capi.cpp`: a null module or
name pointer becomes the empty string; the signature is split into inputs and
optional first output; the callback is bound with its context. -/
def unwrapImportedFunction {Ctx Inst : Type}
    (imported_func : FizzyImportedFunction Ctx Inst) : ImportedFunction Inst :=
  { module := imported_func.module.getD ""
    name := imported_func.name.getD ""
    inputs := imported_func.external_function.type.inputs
    output := imported_func.external_function.type.outputs.head?
    function := unwrapExternalFn imported_func.external_function.function
      imported_func.external_function.context }

/-- Replacing the possibly-null strings of a `FizzyImportedFunction` by their
non-null empty-string forms (null becomes a pointer to `""`). -/
def FizzyImportedFunction.denull {Ctx Inst : Type}
    (f : FizzyImportedFunction Ctx Inst) : FizzyImportedFunction Ctx Inst :=
  { f with module := some (f.module.getD ""), name := some (f.name.getD "") }

/-- A parser outcome: a module or a parse/validation error.  The parser body
(`parser.cpp`) is outside the provided sources, so both C API wrappers below
take the parser as an explicit parameter; the claims about them hold for every
parser. -/
def Parser : Type := List Nat → Except String Module

/-- `fizzy_validate` in `capi.cpp`: run `fizzy::parse` on the bytes, return
`true` when it succeeds, `false` when it throws; the parsed module is
discarded (only a `bool` is returned, no module is retained). -/
def fizzy_validate (parse : Parser) (wasm_binary : List Nat) : Bool :=
  match parse wasm_binary with
  | .ok _ => true
  | .error _ => false

/-- `fizzy_parse` in `capi.cpp`: run `fizzy::parse` on the bytes, return the
(non-null) released module pointer on success and null on failure. -/
def fizzy_parse (parse : Parser) (wasm_binary : List Nat) : Option Module :=
  match parse wasm_binary with
  | .ok m => some m
  | .error _ => none

/-- Whether an import section entry declares a function import. -/
def Import.isFunction (imp : Import) : Bool :=
  match imp.desc with
  | .function _ => true
  | _ => false

/-- The function imports declared by a module, in import-section order. -/
def Module.functionImports (m : Module) : List Import :=
  m.importsec.filter Import.isFunction

/-- The function type a function import declares, looked up in the type
section (validated modules guarantee the index is in range; out-of-range
defaults to the empty signature). -/
def importType (typesec : List FuncType) (imp : Import) : FuncType :=
  match imp.desc with
  | .function typeIdx => typesec.getD typeIdx { inputs := [], outputs := [] }
  | _ => { inputs := [], outputs := [] }

/-- Whether a named candidate matches a declared function import by module
name, element name and signature (structural: equal inputs, and the declared
single output, if any, equals the candidate's optional output). -/
def matchesImport {Inst : Type} (typesec : List FuncType) (imp : Import)
    (candidate : ImportedFunction Inst) : Bool :=
  imp.module == candidate.module && imp.name == candidate.name &&
    (importType typesec imp).inputs == candidate.inputs &&
    (importType typesec imp).outputs.head? == candidate.output

/-- Modelled from the spec: the resolver loop of `resolve_imported_functions`
(`instantiate.cpp` is outside the provided sources).  Per §4.3, walk
the import section in order; for each function import find a candidate matching
by (module, name, signature) and emit its callable with the declared type;
fail on an unresolved import; non-function imports and extra candidates are
skipped. -/
def resolveGo {Inst : Type} (typesec : List FuncType)
    (imported_functions : List (ImportedFunction Inst)) :
    List Import → Except String (List (ExternalFunction Inst))
  | [] => .ok []
  | imp :: rest =>
    if Import.isFunction imp then
      match imported_functions.find? (matchesImport typesec imp) with
      | some c =>
        (resolveGo typesec imported_functions rest).map
          (fun l => { function := c.function, type := importType typesec imp } :: l)
      | none => .error ("imported function " ++ imp.module ++ "." ++ imp.name ++
          " is required")
    else
      resolveGo typesec imported_functions rest

/-- Modelled from the spec: `resolve_imported_functions(module, candidates)`
(§4.3) producing the positional import vector expected by the instantiator. -/
def resolve_imported_functions {Inst : Type} (m : Module)
    (imported_functions : List (ImportedFunction Inst)) :
    Except String (List (ExternalFunction Inst)) :=
  resolveGo m.typesec imported_functions m.importsec

/-- Modelled from the spec: `find_exported_function(Module, name)` (§6),
returning the index of a function exported under that name when one exists
and none otherwise (`instantiate.cpp` is outside the provided sources). -/
def find_exported_function (m : Module) (name : String) : Option Nat :=
  (m.exportsec.find? (fun e =>
    e.name == name && e.kind == ExternalKind.function)).map Export.index

/-- `fizzy_find_exported_function` in `capi.cpp`: returns `true` and writes
the index through `out_func_idx` when the lookup succeeds; returns `false`
leaving `out_func_idx` untouched otherwise.  The out-parameter is modelled by
threading its previous contents. -/
def fizzy_find_exported_function (m : Module) (name : String)
    (out_func_idx : Nat) : Bool × Nat :=
  match find_exported_function m name with
  | none => (false, out_func_idx)
  | some idx => (true, idx)

/-- The parts of `fizzy::Instance` (`instantiate.hpp`) the verified claims
depend on: the owned module, the optional linear memory (null `bytes_ptr`
is `none`; present memory is its byte contents), and the module-defined
globals. -/
structure Instance where
  module : Module
  memory : Option (List Nat)
  globals : List Nat

/-- `fizzy_get_instance_memory_data` in `capi.cpp`: null when the instance
has no memory, otherwise (a pointer to) the memory bytes. -/
def fizzy_get_instance_memory_data (inst : Instance) : Option (List Nat) :=
  match inst.memory with
  | none => none
  | some mem => some mem

/-- `fizzy_get_instance_memory_size` in `capi.cpp`: 0 when the instance has
no memory, otherwise `memory->size()`, the byte count of the buffer. -/
def fizzy_get_instance_memory_size (inst : Instance) : Nat :=
  match inst.memory with
  | none => 0
  | some mem => mem.length

/-- What became of the module pointer a caller passed to an instantiation
entry point: owned by the returned instance, or released (freed during
failure unwinding by the owning `unique_ptr`). -/
inductive ModuleFate
  | ownedByInstance
  | released
deriving DecidableEq, Repr

/-- The tail both entry points share: on success the released instance
pointer is returned and the instance owns the module; on error the catch
block returns null after unwinding has freed the module. -/
def finishInstantiate {InstObj : Type} (x : Except String InstObj) :
    Option InstObj × ModuleFate :=
  match x with
  | .ok inst => (some inst, ModuleFate.ownedByInstance)
  | .error _ => (none, ModuleFate.released)

/-- `fizzy_instantiate` in `capi.cpp`, with the module's fate made explicit.
The instantiator body (`instantiate.cpp`) is outside the provided sources and
is a parameter.  The candidate array is converted, the module pointer is
moved into a `unique_ptr` that is passed to `fizzy::instantiate`; on success
the instance owns the module and its pointer is returned released; on an
instantiation error the catch block returns null after unwinding has freed
the module and the converted vector. -/
def fizzy_instantiate {Ctx Inst InstObj : Type}
    (instantiateImpl : Module → List (ExternalFunction Inst) →
      Except String InstObj)
    (m : Module)
    (imported_functions : List (FizzyExternalFunction Ctx Inst)) :
    Option InstObj × ModuleFate :=
  finishInstantiate
    (instantiateImpl m (imported_functions.map unwrapExternalFunction))

/-- `fizzy_resolve_instantiate` in `capi.cpp`, with the module's fate made
explicit.  The candidate array is converted (null strings become empty), the
module pointer is moved into a `unique_ptr`, the resolver is run and its
output passed to `fizzy::instantiate`; a resolver or instantiation error
unwinds into the catch block, freeing the module, and null is returned. -/
def fizzy_resolve_instantiate {Ctx Inst InstObj : Type}
    (instantiateImpl : Module → List (ExternalFunction Inst) →
      Except String InstObj)
    (m : Module)
    (imported_functions : List (FizzyImportedFunction Ctx Inst)) :
    Option InstObj × ModuleFate :=
  match resolve_imported_functions m
      (imported_functions.map unwrapImportedFunction) with
  | .error _ => (none, ModuleFate.released)
  | .ok imports => finishInstantiate (instantiateImpl m imports)

/-- The maximum call depth, `CallStackLimit` in `limits.hpp` (outside the
provided sources; the spec calls it an implementation-defined maximum). -/
def CallStackLimit : Nat := 2048

/-- A guest function for the call-discipline model: the functions it calls,
in order, and its optional single result. -/
structure MFunc where
  calls : List Nat
  result : Option Nat

/-- Modelled from the spec: the call discipline of `execute` (§4.4; the
executor body `execute.cpp` is outside the provided sources).  Entering the
executor with `depth` at or past the maximum call depth returns `Trap`
without recursing; otherwise the function's nested calls each receive
`depth + 1`, a trapping callee traps the caller, and an unknown function
index is undefined behaviour in the source, modelled as `Trap`. -/
def execute (funcs : List MFunc) (func_idx : Nat) (depth : Nat) :
    ExecutionResult :=
  if h : CallStackLimit ≤ depth then Trap
  else
    match funcs.get? func_idx with
    | none => Trap
    | some f =>
      if (f.calls.map (fun c => execute funcs c (depth + 1))).any
          ExecutionResult.trapped then Trap
      else
        match f.result with
        | some v => ExecutionResult.ofValue v
        | none => Void
termination_by CallStackLimit - depth
decreasing_by all_goals exact Nat.sub_succ_lt_self _ _ (Nat.lt_of_not_le h)

/-! ## Theorems -/

/-- Claim C1: for every byte sequence, `fizzy_validate` returns true if and
only if `fizzy_parse` on the same bytes succeeds (returns a non-null module
instead of an error); validate returns only a `Bool`, retaining no module.
Holds for every underlying parser, which both wrappers share. -/
theorem validate_iff_parse_succeeds (parse : Parser) (wasm_binary : List Nat) :
    fizzy_validate parse wasm_binary = true ↔
      (fizzy_parse parse wasm_binary).isSome = true := by
  unfold fizzy_validate fizzy_parse
  cases parse wasm_binary <;> simp

/-- Claim C2: every `ExecutionResult` the library constructs (through the
only two public constructors) has `has_value = true` only when
`trapped = false`, so no result ever has both flags set; moreover the result
the C boundary rebuilds from a host's `FizzyExecutionResult` is itself one of
the constructible results, so no value is observable after a trap. -/
theorem execution_result_invariant :
    (∀ r : ExecutionResult, ExecutionResult.Constructed r →
      r.has_value = true → r.trapped = false) ∧
    (∀ fr : FizzyExecutionResult,
      ExecutionResult.Constructed (unwrapExecutionResult fr)) := by
  constructor
  · intro r hc hv
    cases hc with
    | ofValue v => rfl
    | ofSuccess success => simp [ExecutionResult.ofSuccess] at hv
  · intro fr
    unfold unwrapExecutionResult
    by_cases ht : fr.trapped
    · simp only [ht, if_true]
      exact ExecutionResult.Constructed.ofSuccess false
    · by_cases hv : fr.has_value
      · simp only [ht, hv, if_false, Bool.not_true, if_neg]
        simp
        exact ExecutionResult.Constructed.ofValue fr.value
      · simp only [ht, hv, if_false, Bool.not_false, if_true]
        simp
        exact ExecutionResult.Constructed.ofSuccess true

/-- Witness for C2: the value-carrying result has both properties at a
concrete input. -/
theorem execution_result_invariant_witness :
    (ExecutionResult.ofValue 5).trapped = false :=
  execution_result_invariant.1 (ExecutionResult.ofValue 5)
    (ExecutionResult.Constructed.ofValue 5) rfl

/-- Claim C9: the internal result produced from a host's
`FizzyExecutionResult` does not depend on the `value` field unless
`trapped = false` and `has_value = true`: two host results agreeing on the
flags, with `trapped` set or `has_value` clear, convert to the same internal
result whatever their `value` fields hold. -/
theorem unwrap_result_value_independent (r1 r2 : FizzyExecutionResult)
    (ht : r1.trapped = r2.trapped) (hv : r1.has_value = r2.has_value)
    (hcase : r1.trapped = true ∨ r1.has_value = false) :
    unwrapExecutionResult r1 = unwrapExecutionResult r2 := by
  unfold unwrapExecutionResult
  rcases hcase with h | h
  · simp [h, ht.symm.trans h]
  · rw [ht]
    by_cases t : r2.trapped
    · simp [t]
    · simp [t, h, hv.symm.trans h]

/-- Witness for C9: a trapped host result converts identically for two
different value words. -/
theorem unwrap_result_value_independent_witness :
    unwrapExecutionResult { trapped := true, has_value := false, value := 0 } =
      unwrapExecutionResult { trapped := true, has_value := false, value := 99 } :=
  unwrap_result_value_independent
    { trapped := true, has_value := false, value := 0 }
    { trapped := true, has_value := false, value := 99 }
    rfl rfl (Or.inl rfl)

/-- Claim C6: the internal callable built by the C boundary from a bound host
callback invokes the callback with exactly the context supplied at binding
time, the calling instance, the argument values with their count, and the
current depth; the `FizzyExecutionResult` the host returns is delivered back
as the call's result (trap, void, or its value). -/
theorem host_callback_marshalling {Ctx Inst : Type}
    (func : FizzyExternalFn Ctx Inst) (context : Ctx) (inst : Inst)
    (args : List Nat) (depth : Nat) :
    unwrapExternalFn func context inst args depth =
      (if (func context inst args args.length depth).trapped then Trap
       else if (func context inst args args.length depth).has_value then
         ExecutionResult.ofValue (func context inst args args.length depth).value
       else Void) := by
  unfold unwrapExternalFn unwrapExecutionResult
  by_cases ht : (func context inst args args.length depth).trapped
  · simp [ht]
  · by_cases hv : (func context inst args args.length depth).has_value <;>
      simp [ht, hv]

/-- Claim C10: `fizzy_resolve_instantiate` accepts candidate entries whose
module or name pointer is null: each null string is treated as the empty
string, both in the converted candidate's fields and in the whole resolve-
and-instantiate pipeline, which cannot distinguish a null pointer from a
pointer to an empty string. -/
theorem null_import_strings_as_empty {Ctx Inst InstObj : Type}
    (f : FizzyImportedFunction Ctx Inst)
    (instantiateImpl : Module → List (ExternalFunction Inst) →
      Except String InstObj)
    (m : Module) (cands : List (FizzyImportedFunction Ctx Inst)) :
    (unwrapImportedFunction f).module = f.module.getD "" ∧
    (unwrapImportedFunction f).name = f.name.getD "" ∧
    unwrapImportedFunction f.denull = unwrapImportedFunction f ∧
    fizzy_resolve_instantiate instantiateImpl m
        (cands.map FizzyImportedFunction.denull) =
      fizzy_resolve_instantiate instantiateImpl m cands := by
  refine ⟨rfl, rfl, ?_, ?_⟩
  · unfold unwrapImportedFunction FizzyImportedFunction.denull
    simp
  · unfold fizzy_resolve_instantiate
    rw [List.map_map]
    have hmap : cands.map (unwrapImportedFunction ∘ FizzyImportedFunction.denull) =
        cands.map unwrapImportedFunction := by
      apply List.map_congr_left
      intro c _
      show unwrapImportedFunction c.denull = unwrapImportedFunction c
      unfold unwrapImportedFunction FizzyImportedFunction.denull
      simp
    rw [hmap]

/-- Claim C8: `fizzy_get_instance_memory_data` returns (a pointer to) the
instance's linear-memory bytes, or null when the instance has no memory, and
`fizzy_get_instance_memory_size` returns the memory size in bytes (the byte
count of the buffer, not pages), 0 when there is no memory. -/
theorem instance_memory_accessors (inst : Instance) :
    (inst.memory = none → fizzy_get_instance_memory_data inst = none ∧
      fizzy_get_instance_memory_size inst = 0) ∧
    (∀ membytes, inst.memory = some membytes →
      fizzy_get_instance_memory_data inst = some membytes ∧
      fizzy_get_instance_memory_size inst = membytes.length) := by
  unfold fizzy_get_instance_memory_data fizzy_get_instance_memory_size
  constructor
  · intro h
    rw [h]
    exact ⟨rfl, rfl⟩
  · intro membytes h
    rw [h]
    exact ⟨rfl, rfl⟩

/-- Witness for C8: a concrete instance with a 2-byte memory and one
without. -/
theorem instance_memory_accessors_witness :
    (fizzy_get_instance_memory_data
        { module := { typesec := [], importsec := [], exportsec := [] },
          memory := some [7, 8], globals := [] } = some [7, 8] ∧
      fizzy_get_instance_memory_size
        { module := { typesec := [], importsec := [], exportsec := [] },
          memory := some [7, 8], globals := [] } = 2) ∧
    (fizzy_get_instance_memory_data
        { module := { typesec := [], importsec := [], exportsec := [] },
          memory := none, globals := [] } = none ∧
      fizzy_get_instance_memory_size
        { module := { typesec := [], importsec := [], exportsec := [] },
          memory := none, globals := [] } = 0) :=
  ⟨(instance_memory_accessors _).2 [7, 8] rfl,
    (instance_memory_accessors _).1 rfl⟩

/-- The shared success/catch tail returns a non-null instance exactly when
the module is owned by the instance, and null exactly when it was released. -/
lemma finishInstantiate_fate {InstObj : Type} (x : Except String InstObj) :
    ((finishInstantiate x).1.isSome = true ↔
      (finishInstantiate x).2 = ModuleFate.ownedByInstance) ∧
    ((finishInstantiate x).1 = none ↔
      (finishInstantiate x).2 = ModuleFate.released) := by
  cases x <;> simp [finishInstantiate]

/-- Claim C3: both instantiation entry points consume the module: they
return a non-null instance exactly when the module's fate is to be owned by
that instance, and a null instance exactly when the module (together with
the converted import vector, freed by scope exit in every path) has been
released during failure unwinding.  Holds for every instantiator body. -/
theorem instantiate_consumes_module {Ctx Inst InstObj : Type}
    (instantiateImpl : Module → List (ExternalFunction Inst) →
      Except String InstObj)
    (m : Module)
    (external_funcs : List (FizzyExternalFunction Ctx Inst))
    (imported_funcs : List (FizzyImportedFunction Ctx Inst)) :
    ((fizzy_instantiate instantiateImpl m external_funcs).1.isSome = true ↔
      (fizzy_instantiate instantiateImpl m external_funcs).2 =
        ModuleFate.ownedByInstance) ∧
    ((fizzy_instantiate instantiateImpl m external_funcs).1 = none ↔
      (fizzy_instantiate instantiateImpl m external_funcs).2 =
        ModuleFate.released) ∧
    ((fizzy_resolve_instantiate instantiateImpl m imported_funcs).1.isSome =
        true ↔
      (fizzy_resolve_instantiate instantiateImpl m imported_funcs).2 =
        ModuleFate.ownedByInstance) ∧
    ((fizzy_resolve_instantiate instantiateImpl m imported_funcs).1 = none ↔
      (fizzy_resolve_instantiate instantiateImpl m imported_funcs).2 =
        ModuleFate.released) := by
  refine ⟨(finishInstantiate_fate _).1, (finishInstantiate_fate _).2, ?_, ?_⟩
  · unfold fizzy_resolve_instantiate
    rcases hres : resolve_imported_functions m
        (imported_funcs.map unwrapImportedFunction) with e | imports
    · simp
    · exact (finishInstantiate_fate _).1
  · unfold fizzy_resolve_instantiate
    rcases hres : resolve_imported_functions m
        (imported_funcs.map unwrapImportedFunction) with e | imports
    · simp
    · exact (finishInstantiate_fate _).2

/-- Claim C7: `find_exported_function` returns the index of a function
exported under the given name when one exists and none otherwise; the C
variant returns true and writes that index through the out-parameter exactly
when such an export exists, and returns false leaving the out-parameter's
previous contents unmodified otherwise. -/
theorem find_exported_function_spec (m : Module) (name : String)
    (out_func_idx : Nat) :
    ((fizzy_find_exported_function m name out_func_idx).1 = true ↔
      ∃ e ∈ m.exportsec, e.name = name ∧ e.kind = ExternalKind.function) ∧
    ((fizzy_find_exported_function m name out_func_idx).1 = true →
      ∃ e ∈ m.exportsec, e.name = name ∧ e.kind = ExternalKind.function ∧
        (fizzy_find_exported_function m name out_func_idx).2 = e.index ∧
        find_exported_function m name = some e.index) ∧
    ((fizzy_find_exported_function m name out_func_idx).1 = false →
      (fizzy_find_exported_function m name out_func_idx).2 = out_func_idx ∧
        find_exported_function m name = none) := by
  unfold fizzy_find_exported_function find_exported_function
  rcases hf : m.exportsec.find?
      (fun e => e.name == name && e.kind == ExternalKind.function) with _ | e
  · simp only [hf, Option.map_none']
    rw [List.find?_eq_none] at hf
    refine ⟨?_, ?_, ?_⟩
    · constructor
      · intro h
        simp at h
      · rintro ⟨e, he, hn, hk⟩
        have hne := hf e he
        simp [hn, hk] at hne
    · intro h
      simp at h
    · intro _
      exact ⟨by simp, by simp⟩
  · simp only [hf, Option.map_some']
    have hmem := List.mem_of_find?_eq_some hf
    have hp := List.find?_some hf
    simp only [Bool.and_eq_true, beq_iff_eq] at hp
    refine ⟨?_, ?_, ?_⟩
    · exact ⟨fun _ => ⟨e, hmem, hp.1, hp.2⟩, fun _ => by simp⟩
    · intro _
      exact ⟨e, hmem, hp.1, hp.2, by simp, by simp⟩
    · intro h
      simp at h

/-- Witness for C7: in a module exporting function `f` at index 3, looking up
`f` succeeds writing 3, and looking up `g` fails leaving the out-parameter's
previous contents 99. -/
theorem find_exported_function_spec_witness :
    (∃ e ∈ (Module.mk [] []
        [Export.mk "f" ExternalKind.function 3]).exportsec,
      e.name = "f" ∧ e.kind = ExternalKind.function ∧
        (fizzy_find_exported_function
          (Module.mk [] [] [Export.mk "f" ExternalKind.function 3]) "f" 99).2 =
          e.index ∧
        find_exported_function
          (Module.mk [] [] [Export.mk "f" ExternalKind.function 3]) "f" =
          some e.index) ∧
    ((fizzy_find_exported_function
        (Module.mk [] [] [Export.mk "f" ExternalKind.function 3]) "g" 99).2 =
        99 ∧
      find_exported_function
        (Module.mk [] [] [Export.mk "f" ExternalKind.function 3]) "g" =
        none) :=
  ⟨(find_exported_function_spec
      (Module.mk [] [] [Export.mk "f" ExternalKind.function 3]) "f" 99).2.1
      (by decide),
    (find_exported_function_spec
      (Module.mk [] [] [Export.mk "f" ExternalKind.function 3]) "g" 99).2.2
      (by decide)⟩

/-- Appending a candidate the predicate rejects does not change the first
match found. -/
lemma find?_append_nomatch {α : Type} (p : α → Bool) (c : α)
    (h : p c = false) : ∀ l : List α, (l ++ [c]).find? p = l.find? p := by
  intro l
  induction l with
  | nil => simp [List.find?, h]
  | cons a t ih =>
    cases hpa : p a with
    | true =>
      rw [List.cons_append, List.find?_cons_of_pos _ hpa,
        List.find?_cons_of_pos _ hpa]
    | false =>
      rw [List.cons_append, List.find?_cons_of_neg _ (by simp [hpa]),
        List.find?_cons_of_neg _ (by simp [hpa]), ih]

/-- When the resolver loop succeeds, its output corresponds one-to-one and
in order to the function imports: each entry comes from a candidate matching
that import by (module, name, signature) and carries the declared type. -/
lemma resolveGo_ok_forall2 {Inst : Type} (typesec : List FuncType)
    (cands : List (ImportedFunction Inst)) :
    ∀ (imps : List Import) (l : List (ExternalFunction Inst)),
      resolveGo typesec cands imps = .ok l →
      List.Forall₂ (fun imp ef => ∃ c ∈ cands,
        matchesImport typesec imp c = true ∧
        ef = { function := c.function, type := importType typesec imp })
        (imps.filter Import.isFunction) l := by
  intro imps
  induction imps with
  | nil =>
    intro l h
    simp only [resolveGo] at h
    cases h
    simp only [List.filter_nil]
    exact List.Forall₂.nil
  | cons imp rest ih =>
    intro l h
    by_cases hf : Import.isFunction imp
    · simp only [resolveGo, if_pos hf] at h
      cases hfind : cands.find? (matchesImport typesec imp) with
      | none =>
        rw [hfind] at h
        simp at h
      | some c =>
        rw [hfind] at h
        cases hrest : resolveGo typesec cands rest with
        | error e =>
          rw [hrest] at h
          simp [Except.map] at h
        | ok l2 =>
          rw [hrest] at h
          simp only [Except.map] at h
          cases h
          rw [List.filter_cons, if_pos hf]
          exact List.Forall₂.cons
            ⟨c, List.mem_of_find?_eq_some hfind, List.find?_some hfind, rfl⟩
            (ih l2 hrest)
    · simp only [resolveGo, if_neg hf] at h
      rw [List.filter_cons, if_neg hf]
      exact ih l h

/-- When some function import of the list has no matching candidate, the
resolver loop fails. -/
lemma resolveGo_unresolved {Inst : Type} (typesec : List FuncType)
    (cands : List (ImportedFunction Inst)) :
    ∀ imps : List Import,
      (∃ imp ∈ imps, Import.isFunction imp = true ∧
        ∀ c ∈ cands, matchesImport typesec imp c = false) →
      ∃ e, resolveGo typesec cands imps = .error e := by
  intro imps
  induction imps with
  | nil =>
    rintro ⟨imp, hmem, _⟩
    exact absurd hmem (List.not_mem_nil imp)
  | cons imp rest ih =>
    rintro ⟨w, hw, hwf, hnomatch⟩
    rcases List.mem_cons.mp hw with rfl | hwrest
    · have hfind : cands.find? (matchesImport typesec w) = none := by
        rw [List.find?_eq_none]
        intro c hc
        simp [hnomatch c hc]
      exact ⟨"imported function " ++ w.module ++ "." ++ w.name ++
        " is required", by simp only [resolveGo, if_pos hwf, hfind]⟩
    · by_cases hf : Import.isFunction imp
      · cases hfind : cands.find? (matchesImport typesec imp) with
        | none =>
          exact ⟨"imported function " ++ imp.module ++ "." ++ imp.name ++
            " is required", by simp only [resolveGo, if_pos hf, hfind]⟩
        | some c =>
          obtain ⟨e, he⟩ := ih ⟨w, hwrest, hwf, hnomatch⟩
          exact ⟨e, by simp only [resolveGo, if_pos hf, hfind, he, Except.map]⟩
      · obtain ⟨e, he⟩ := ih ⟨w, hwrest, hwf, hnomatch⟩
        exact ⟨e, by simp only [resolveGo, if_neg hf]; exact he⟩

/-- A candidate matching none of the function imports never affects the
resolver loop's result. -/
lemma resolveGo_extra_ignored {Inst : Type} (typesec : List FuncType)
    (cands : List (ImportedFunction Inst)) (extra : ImportedFunction Inst) :
    ∀ imps : List Import,
      (∀ imp ∈ imps, Import.isFunction imp = true →
        matchesImport typesec imp extra = false) →
      resolveGo typesec (cands ++ [extra]) imps =
        resolveGo typesec cands imps := by
  intro imps
  induction imps with
  | nil => intro _; rfl
  | cons imp rest ih =>
    intro hno
    have hrest := fun i hi => hno i (List.mem_cons_of_mem _ hi)
    by_cases hf : Import.isFunction imp
    · have hfind : (cands ++ [extra]).find? (matchesImport typesec imp) =
          cands.find? (matchesImport typesec imp) :=
        find?_append_nomatch _ _ (hno imp (List.mem_cons_self _ _) hf) _
      simp only [resolveGo, if_pos hf, hfind, ih hrest]
    · simp only [resolveGo, if_neg hf]
      exact ih hrest

/-- Claim C4: for every module and candidate list,
`resolve_imported_functions` produces, for each function import the module
declares, exactly one entry from a candidate matching it by module name,
element name and signature, in the module's import order; if some declared
function import has no matching candidate the call fails; and a candidate
matching no declared function import is ignored (appending it changes
nothing). -/
theorem resolve_imported_functions_spec {Inst : Type} (m : Module)
    (cands : List (ImportedFunction Inst)) (extra : ImportedFunction Inst) :
    (∀ l, resolve_imported_functions m cands = .ok l →
      List.Forall₂ (fun imp ef => ∃ c ∈ cands,
        matchesImport m.typesec imp c = true ∧
        ef = { function := c.function, type := importType m.typesec imp })
        m.functionImports l) ∧
    ((∃ imp ∈ m.functionImports, ∀ c ∈ cands,
        matchesImport m.typesec imp c = false) →
      ∃ e, resolve_imported_functions m cands = .error e) ∧
    ((∀ imp ∈ m.functionImports, matchesImport m.typesec imp extra = false) →
      resolve_imported_functions m (cands ++ [extra]) =
        resolve_imported_functions m cands) := by
  refine ⟨?_, ?_, ?_⟩
  · intro l h
    exact resolveGo_ok_forall2 m.typesec cands m.importsec l h
  · rintro ⟨imp, hmem, hno⟩
    have hm := List.mem_filter.mp hmem
    exact resolveGo_unresolved m.typesec cands m.importsec
      ⟨imp, hm.1, hm.2, hno⟩
  · intro hno
    apply resolveGo_extra_ignored
    intro imp hmem hf
    exact hno imp (List.mem_filter.mpr ⟨hmem, hf⟩)

/-- Sample signature `(i32) -> i32` for the resolver witness. -/
def sampleTy : FuncType := { inputs := [ValType.i32], outputs := [ValType.i32] }

/-- Sample function import `env.f` of type index 0. -/
def sampleImport : Import :=
  { module := "env", name := "f", desc := ImportDesc.function 0 }

/-- Sample module declaring the single function import `env.f`. -/
def sampleModule : Module :=
  { typesec := [sampleTy], importsec := [sampleImport], exportsec := [] }

/-- Sample internal callable. -/
def sampleFn : InternalFn Unit := fun _ _ _ => Void

/-- Candidate matching `env.f (i32) -> i32`. -/
def sampleCand : ImportedFunction Unit :=
  { module := "env", name := "f", inputs := [ValType.i32],
    output := some ValType.i32, function := sampleFn }

/-- Extra candidate `env.g () -> ()` matching no declared import. -/
def sampleExtra : ImportedFunction Unit :=
  { module := "env", name := "g", inputs := [], output := none,
    function := sampleFn }

/-- Witness for C4 at a concrete module and candidate lists: the matched
output for `env.f`, failure with no candidates, and an ignored extra
candidate. -/
theorem resolve_imported_functions_spec_witness :
    List.Forall₂ (fun imp ef => ∃ c ∈ [sampleCand],
        matchesImport sampleModule.typesec imp c = true ∧
        ef = ExternalFunction.mk c.function
          (importType sampleModule.typesec imp))
      sampleModule.functionImports
      [ExternalFunction.mk sampleFn sampleTy] ∧
    (∃ e, resolve_imported_functions sampleModule
        ([] : List (ImportedFunction Unit)) = .error e) ∧
    resolve_imported_functions sampleModule ([sampleCand] ++ [sampleExtra]) =
      resolve_imported_functions sampleModule [sampleCand] := by
  refine ⟨?_, ?_, ?_⟩
  · exact (resolve_imported_functions_spec sampleModule [sampleCand]
      sampleExtra).1 [ExternalFunction.mk sampleFn sampleTy] rfl
  · exact (resolve_imported_functions_spec sampleModule [] sampleExtra).2.1
      ⟨sampleImport, by decide, fun c hc => absurd hc (List.not_mem_nil c)⟩
  · apply (resolve_imported_functions_spec sampleModule [sampleCand]
      sampleExtra).2.2
    intro imp hmem
    have hsingle : sampleModule.functionImports = [sampleImport] := rfl
    rw [hsingle] at hmem
    rw [List.mem_singleton.mp hmem]
    rfl

/-- Claim C5: the `depth` argument of `execute` bounds recursion: entering
the executor at or past the maximum call depth returns `Trap` instead of
recursing (independently of the instance's functions), and below the bound
every nested call a function body performs receives `depth + 1`. -/
theorem execute_depth_bound (funcs : List MFunc) (func_idx depth : Nat)
    (f : MFunc) :
    (CallStackLimit ≤ depth → execute funcs func_idx depth = Trap) ∧
    (depth < CallStackLimit → funcs.get? func_idx = some f →
      execute funcs func_idx depth =
        if (f.calls.map (fun c => execute funcs c (depth + 1))).any
            ExecutionResult.trapped then Trap
        else
          match f.result with
          | some v => ExecutionResult.ofValue v
          | none => Void) := by
  constructor
  · intro h
    unfold execute
    rw [dif_pos h]
  · intro hlt hsome
    conv_lhs => unfold execute
    rw [dif_neg (Nat.not_le.mpr hlt), hsome]

/-- Witness for C5: a function with no calls and result 7 executes to its
value at depth 0 and traps when entered at the maximum call depth. -/
theorem execute_depth_bound_witness :
    execute [{ calls := [], result := some 7 }] 0 CallStackLimit = Trap ∧
    execute [{ calls := [], result := some 7 }] 0 0 =
      ExecutionResult.ofValue 7 := by
  constructor
  · exact (execute_depth_bound [{ calls := [], result := some 7 }] 0
      CallStackLimit { calls := [], result := some 7 }).1 (Nat.le_refl _)
  · have h := (execute_depth_bound [{ calls := [], result := some 7 }] 0 0
      { calls := [], result := some 7 }).2 (by decide) rfl
    simpa using h

end Fizzy
